import Mathlib

/-!
Shallow embedding of the ContractAI pipeline (src/demo/WorkingContractAI.py):
clause segmentation (`ContractParser.split_into_clauses`), rule-based risk
detection (`WorkingContractAI._detect_detailed_risks`), risk scoring
(`WorkingContractAI._calculate_risk_score`), and report aggregation
(`WorkingContractAI._generate_report`), together with the per-clause
LLM-enrichment merge performed by `WorkingContractAI.analyze_contract`.
-/

namespace ContractAI

/-- Python's `'\n'.join(parts)`: joins a list of strings with a newline
separator (empty list gives the empty string). -/
def joinNl : List String → String
  | [] => ""
  | [s] => s
  | s :: rest => s ++ "\n" ++ joinNl rest

/-- Applies `f` to the last element of a list (models Python
`xs[-1] = f(xs[-1])`); identity on the empty list. -/
def updateLast (f : String → String) : List String → List String
  | [] => []
  | [s] => [f s]
  | s :: rest => s :: updateLast f rest

/-- All suffixes of a character list, longest first (used to model searching
for a match at every start position, as `x in s` and `re.search` do). -/
def charSuffixes : List Char → List (List Char)
  | [] => [[]]
  | c :: cs => (c :: cs) :: charSuffixes cs

/-- Python's substring test `needle in hay` on character lists. -/
def containsSubstrChars (hay needle : List Char) : Bool :=
  (charSuffixes hay).any (fun suf => needle.isPrefixOf suf)

/-- Python's substring test `needle in hay`. -/
def containsSubstr (hay needle : String) : Bool :=
  containsSubstrChars hay.data needle.data

/-- Python's `text.strip()`: drop the whitespace at both ends. -/
def pyStripChars (cs : List Char) : List Char :=
  ((cs.dropWhile Char.isWhitespace).reverse.dropWhile Char.isWhitespace).reverse

/-- Python's `content.split('\n')` on character lists (keeps empty
pieces, as `str.split` with an explicit separator does). -/
def splitOnNl : List Char → List (List Char)
  | [] => [[]]
  | c :: rest =>
    match splitOnNl rest, c with
    | r, '\n' => [] :: r
    | [], _ => [[c]]
    | line :: r, _ => (c :: line) :: r

/-- Remainders of a character list after consuming zero or more characters
satisfying `p` (all backtracking alternatives of a regex `[class]*` run). -/
def runRemainders (p : Char → Bool) : List Char → List (List Char)
  | [] => [[]]
  | c :: cs => if p c then (c :: cs) :: runRemainders p cs else [c :: cs]

/-- Remainders after consuming one or more characters satisfying `p`
(alternatives of a regex `[class]+` run). -/
def runRemainders1 (p : Char → Bool) : List Char → List (List Char)
  | [] => []
  | c :: cs => if p c then runRemainders p cs else []

/-- The Chinese numeral character class of the main-clause pattern
`^第[一二三四五六七八九十零]+条`. -/
def zhNumeralFull (c : Char) : Bool :=
  c == '一' || c == '二' || c == '三' || c == '四' || c == '五' ||
  c == '六' || c == '七' || c == '八' || c == '九' || c == '十' || c == '零'

/-- The Chinese numeral character class of the sub-clause pattern
`^[一二三四五六七八九十]、` (no `零`). -/
def zhNumeralTen (c : Char) : Bool :=
  c == '一' || c == '二' || c == '三' || c == '四' || c == '五' ||
  c == '六' || c == '七' || c == '八' || c == '九' || c == '十'

/-- Anchored match of `第[class]+条` at the start of a character list. -/
def matchesDiTiao (digitClass : Char → Bool) : List Char → Bool
  | '第' :: rest =>
    (runRemainders1 digitClass rest).any (fun r => r.head? == some '条')
  | _ => false

/-- `ContractParser._is_main_clause`: `re.match` of one of
`^第[一二三四五六七八九十零]+条`, `^第\d+条`, `^ARTICLE`, `^SECTION`
against the stripped text. -/
def isMainClause (text : String) : Bool :=
  let cs := pyStripChars text.data
  matchesDiTiao zhNumeralFull cs || matchesDiTiao Char.isDigit cs ||
  "ARTICLE".data.isPrefixOf cs || "SECTION".data.isPrefixOf cs

/-- Anchored match of `\d+\.\d+` at the start of a character list. -/
def matchesNumDotNum (cs : List Char) : Bool :=
  (runRemainders1 Char.isDigit cs).any (fun r =>
    match r with
    | '.' :: d :: _ => d.isDigit
    | _ => false)

/-- `ContractParser._is_sub_clause`: `re.match` of one of `^\d+\.\d+`,
`^[一二三四五六七八九十]、`, `^\d+、` against the stripped text. -/
def isSubClause (text : String) : Bool :=
  let cs := pyStripChars text.data
  matchesNumDotNum cs ||
  (match cs with
   | c :: '、' :: _ => zhNumeralTen c
   | _ => false) ||
  (runRemainders1 Char.isDigit cs).any (fun r => r.head? == some '、')

/-- A paragraph record as produced by `ContractParser.load_contract`
(`page_content` is the paragraph text; source metadata is irrelevant to
the properties below and omitted). -/
structure ParagraphRecord where
  page_content : String
deriving Repr, DecidableEq

/-- A clause record as emitted by `ContractParser.split_into_clauses`
(`page_content` is the combined body, `clause_title` and
`sub_clause_count` come from the metadata the code attaches). -/
structure ClauseRecord where
  page_content : String
  clause_title : String
  sub_clause_count : Nat
deriving Repr, DecidableEq

/-- `ContractParser._combine_clause_content`: main-clause lines followed by
sub-clause entries, joined by newlines. -/
def combineClauseContent (mainClause subClauses : List String) : String :=
  joinNl (mainClause ++ subClauses)

/-- The loop state of `ContractParser.split_into_clauses`: the clauses
emitted so far, the accumulating main-clause lines, the current main
title, and the accumulating sub-clause entries. -/
structure SegState where
  clauses : List ClauseRecord
  mainLines : List String
  mainTitle : String
  subs : List String
deriving Repr, DecidableEq

/-- Initial state of `split_into_clauses` (`current_main_title = "合同前言"`,
empty accumulators). -/
def initSegState : SegState :=
  { clauses := [], mainLines := [], mainTitle := "合同前言", subs := [] }

/-- Emitting the accumulated clause (the flush performed on a new
main-clause heading and after the loop). -/
def flushClause (st : SegState) : List ClauseRecord :=
  st.clauses ++
    [{ page_content := combineClauseContent st.mainLines st.subs,
       clause_title := st.mainTitle,
       sub_clause_count := st.subs.length }]

/-- One iteration of the `split_into_clauses` loop on paragraph text
`text`: main-clause headings flush the previous clause (when any content
is accumulated) and reset; sub-clause headings open a new sub-clause;
plain prose attaches to the last open sub-clause, else to the main body. -/
def segStep (st : SegState) (text : String) : SegState :=
  if isMainClause text then
    { clauses :=
        if !st.mainLines.isEmpty || !st.subs.isEmpty then flushClause st
        else st.clauses,
      mainLines := [text], mainTitle := text, subs := [] }
  else if isSubClause text then
    { st with subs := st.subs ++ [text] }
  else if !st.subs.isEmpty then
    { st with subs := updateLast (fun s => s ++ "\n" ++ text) st.subs }
  else
    { st with mainLines := st.mainLines ++ [text] }

/-- The flush performed after the loop of `split_into_clauses`: emit the
final accumulated clause if any content remains. -/
def finishSeg (final : SegState) : List ClauseRecord :=
  if !final.mainLines.isEmpty || !final.subs.isEmpty then flushClause final
  else final.clauses

/-- `ContractParser.split_into_clauses`: fold the loop over the paragraph
records, then flush the final accumulated clause if non-empty. -/
def splitIntoClauses (documents : List ParagraphRecord) : List ClauseRecord :=
  finishSeg (documents.foldl (fun st d => segStep st d.page_content) initSegState)

/-- All text chunks a segmentation state holds, in order: bodies of the
clauses already emitted, then the pending main-clause lines, then the
pending sub-clause entries. -/
def stParts (st : SegState) : List String :=
  st.clauses.map (fun c => c.page_content) ++ st.mainLines ++ st.subs

/-- Invariant of the segmentation loop: the newline-join of all held
chunks equals the newline-join of the consumed paragraph texts, and the
state holds chunks exactly when some text has been consumed. -/
def SegInv (st : SegState) (ts : List String) : Prop :=
  joinNl (stParts st) = joinNl ts ∧ (stParts st = [] ↔ ts = [])

/-- Finding severity: `_detect_detailed_risks` only ever creates findings
with `'level'` equal to `'medium'` (keyword hits) or `'high'` (pattern
hits). -/
inductive Severity where
  | medium
  | high
deriving Repr, DecidableEq

/-- A risk finding dict as built by `WorkingContractAI._detect_detailed_risks`. -/
structure RiskFinding where
  type : String
  level : Severity
  description : String
  position : String
  category : String
deriving Repr, DecidableEq

/-- The regular-expression fragments occurring in the `risk_rules` pattern
table: literals, `.*` (any run not crossing a newline), `\d+`, `\d*`,
`\.?`, and sequencing. -/
inductive Rx where
  | lit (s : String)
  | anyStar
  | digitsPlus
  | digitsStar
  | optDot
  | seq (a b : Rx)

/-- All remainders of `cs` after matching `r` at its start (full
backtracking regex semantics; a match exists iff the list is non-empty). -/
def rxMatch : Rx → List Char → List (List Char)
  | .lit s, cs => if s.data.isPrefixOf cs then [cs.drop s.data.length] else []
  | .anyStar, cs => runRemainders (fun c => c != '\n') cs
  | .digitsPlus, cs => runRemainders1 Char.isDigit cs
  | .digitsStar, cs => runRemainders Char.isDigit cs
  | .optDot, cs =>
    match cs with
    | '.' :: rest => [('.' :: rest), rest]
    | _ => [cs]
  | .seq a b, cs => (rxMatch a cs).flatMap (rxMatch b)

/-- Python `re.search(pattern, text)` as a Boolean: the pattern matches
starting at some position of the text. -/
def rxSearch (r : Rx) (text : String) : Bool :=
  (charSuffixes text.data).any (fun suf => !(rxMatch r suf).isEmpty)

/-- Sequencing a list of regex fragments left to right. -/
def rxSeqAll : List Rx → Rx
  | [] => .lit ""
  | [r] => r
  | r :: rest => .seq r (rxSeqAll rest)

/-- One entry of the `risk_rules` table of `WorkingContractAI._load_risk_rules`. -/
structure RiskRule where
  name : String
  keywords : List String
  patterns : List (Rx × String)

/-- `WorkingContractAI._load_risk_rules`: the fixed rule table
(`financial_risk`, `delivery_risk`, `legal_risk` in dict order). -/
def riskRules : List (String × RiskRule) :=
  [("financial_risk",
    { name := "财务风险",
      keywords := ["支付", "付款", "违约金", "价格", "金额", "赔偿", "利息", "预付款", "尾款"],
      patterns :=
        [(rxSeqAll [.lit "剩余款项", .anyStar, .lit "验收合格后支付"], "付款条件模糊"),
         (rxSeqAll [.lit "支付", .anyStar, .lit "总价", .anyStar, .lit "50%"], "预付款比例较高"),
         (rxSeqAll [.lit "违约金", .anyStar, .digitsPlus, .optDot, .digitsStar, .lit "%"], "违约金比例需确认")] }),
   ("delivery_risk",
    { name := "交付风险",
      keywords := ["交付", "验收", "标准", "时间", "期限", "延迟", "尽快", "验收标准"],
      patterns :=
        [(rxSeqAll [.lit "按照", .anyStar, .lit "标准验收"], "验收标准模糊"),
         (.lit "尽快处理", "响应时间不明确"),
         (.lit "行业通用标准", "标准定义不清")] }),
   ("legal_risk",
    { name := "法律风险",
      keywords := ["争议", "诉讼", "管辖", "知识产权", "保密", "责任", "纠纷"],
      patterns :=
        [(.lit "乙方承担全部责任", "责任分配不均"),
         (rxSeqAll [.lit "甲方所在地", .anyStar, .lit "诉讼"], "管辖地单方有利"),
         (.lit "友好协商解决", "解决方式模糊")] })]

/-- `WorkingContractAI._find_keyword_position`: 1-based line number of the
first line containing the keyword, or the generic locator. -/
def findKeywordPosition (content keyword : String) : String :=
  match (splitOnNl content.data).findIdx?
      (fun line => containsSubstrChars line keyword.data) with
  | some i => "第" ++ toString (i + 1) ++ "行"
  | none => "条款内容"

/-- `WorkingContractAI._detect_detailed_risks`: for each rule, one
medium-severity finding per keyword occurring in the content, then one
high-severity finding per pattern matching the content. -/
def detectDetailedRisks (content : String) : List RiskFinding :=
  riskRules.flatMap (fun rule =>
    (rule.2.keywords.filter (fun kw => containsSubstr content kw)).map
      (fun kw =>
        { type := rule.2.name, level := .medium,
          description := "发现关键词: " ++ kw,
          position := findKeywordPosition content kw,
          category := rule.1 })
    ++ (rule.2.patterns.filter (fun p => rxSearch p.1 content)).map
      (fun p =>
        { type := rule.2.name, level := .high,
          description := p.2, position := "条款内容", category := rule.1 }))

/-- `WorkingContractAI._calculate_risk_score`: 85 when no findings,
otherwise `max(30, 85 - 20*high - 10*medium)`. -/
def calculateRiskScore (risks : List RiskFinding) : Int :=
  if risks.isEmpty then 85
  else
    let highRisks : Int := (risks.filter (fun r => r.level == Severity.high)).length
    let mediumRisks : Int := (risks.filter (fun r => r.level == Severity.medium)).length
    max 30 (85 - (highRisks * 20 + mediumRisks * 10))

/-- `WorkingContractAI._get_risk_level`: the 60/80 tier thresholds. -/
def getRiskLevel (score : Int) : String :=
  if score ≥ 80 then "低风险"
  else if score ≥ 60 then "中风险"
  else "高风险"

/-- The deterministic part of a clause analysis consumed by
`_generate_report` (`'risks'` and `'risk_score'` keys). -/
structure ClauseAnalysis where
  risks : List RiskFinding
  risk_score : Int
deriving Repr, DecidableEq

/-- `WorkingContractAI._basic_risk_analysis`: detector followed by scorer. -/
def basicRiskAnalysis (content : String) : ClauseAnalysis :=
  let risks := detectDetailedRisks content
  { risks := risks, risk_score := calculateRiskScore risks }

/-- `WorkingContractAI._generate_summary`: three-bucket narrative chosen by
the number of clauses scoring below 60. -/
def generateSummary (analysis : List ClauseAnalysis) : String :=
  let highRiskCount := (analysis.filter (fun c => decide (c.risk_score < 60))).length
  if highRiskCount == 0 then "合同整体风险可控，建议关注个别中风险条款。"
  else if highRiskCount ≤ 2 then "合同存在少量高风险条款，建议重点审查付款条件、违约责任等条款。"
  else "合同存在多处高风险条款，建议法务部门重点审查。"

/-- The document-level report dict of `WorkingContractAI._generate_report`
(the constant `llm_enhanced`/`timestamp` presentation fields are omitted). -/
structure DocumentReport where
  overall_risk_score : Int
  risk_level : String
  total_clauses : Nat
  total_risks_found : Nat
  high_risk_clauses : Nat
  medium_risk_clauses : Nat
  clauses_analysis : List ClauseAnalysis
  summary : String
deriving Repr, DecidableEq

/-- The failure of `_generate_report` on an empty analysis list: Python
raises `ZeroDivisionError` at `sum(...) // len(analysis)`; the spec's
taxonomy names this condition `EmptyDocumentError`. -/
inductive AggError where
  | emptyDocument
deriving Repr, DecidableEq

/-- `WorkingContractAI._generate_report`: counts (`risk_score < 60` high,
`60 <= risk_score < 75` medium), floor-averaged overall score, tier via
`_get_risk_level`, and narrative summary.  Fails on an empty list (the
division by `len(analysis)`). -/
def generateReport (analysis : List ClauseAnalysis) :
    Except AggError DocumentReport :=
  if analysis.isEmpty then .error .emptyDocument
  else .ok
    { overall_risk_score :=
        Int.fdiv ((analysis.map (fun c => c.risk_score)).sum) (analysis.length : Int),
      risk_level :=
        getRiskLevel
          (Int.fdiv ((analysis.map (fun c => c.risk_score)).sum) (analysis.length : Int)),
      total_clauses := analysis.length,
      total_risks_found := (analysis.map (fun c => c.risks.length)).sum,
      high_risk_clauses :=
        (analysis.filter (fun c => decide (c.risk_score < 60))).length,
      medium_risk_clauses :=
        (analysis.filter (fun c => decide (60 ≤ c.risk_score ∧ c.risk_score < 75))).length,
      clauses_analysis := analysis,
      summary := generateSummary analysis }

/-- `WorkingContractAI.analyze_contract` with `use_llm = False`
(deterministic pipeline): segment, run the basic analysis on each clause
body, aggregate. -/
def analyzeContractBasic (documents : List ParagraphRecord) :
    Except AggError DocumentReport :=
  generateReport
    ((splitIntoClauses documents).map (fun c => basicRiskAnalysis c.page_content))

/-- Values of the per-clause analysis dicts merged by `analyze_contract`
(the code's dicts mix the deterministic fields with whatever JSON object
the LLM layer returned; these constructors cover the values involved). -/
inductive PyValue where
  | int (n : Int)
  | str (s : String)
  | strList (ss : List String)
  | findings (fs : List RiskFinding)
deriving Repr, DecidableEq

/-- A Python dict as an association list (keys unique in all dicts the
code builds; lookup returns the first binding). -/
abbrev PyDict : Type := List (String × PyValue)

/-- Python `d[k]` / `k in d` as an optional lookup. -/
def dictGet (d : PyDict) (k : String) : Option PyValue :=
  (d.find? (fun kv => kv.1 == k)).map (fun kv => kv.2)

/-- Python `{**a, **b}`: keys of `a` in order with values overridden by
`b` where present, followed by the keys of `b` not in `a`. -/
def dictMerge (a b : PyDict) : PyDict :=
  (a.map (fun kv =>
    match dictGet b kv.1 with
    | some v => (kv.1, v)
    | none => kv)) ++
  b.filter (fun kv => (dictGet a kv.1).isNone)

/-- The `basic_analysis` dict built by `WorkingContractAI._basic_risk_analysis`. -/
def basicRiskAnalysisDict (content : String) : PyDict :=
  let risks := detectDetailedRisks content
  [("risks", PyValue.findings risks),
   ("risk_score", PyValue.int (calculateRiskScore risks)),
   ("review_status", PyValue.str (if risks.isEmpty then "低风险" else "待审核"))]

/-- The per-clause body of the `analyze_contract` loop: basic analysis,
then — when `use_llm` holds and either `use_llm_for_high_risk` is off or
the score is below 70 — a call to the enrichment capability
(`analyze_clause_with_llm`), whose successful dict result is merged over
the basic dict (`{**basic_analysis, **llm_analysis}`) and whose failure
(the `except` branch) leaves the basic analysis unchanged. -/
def analyzeClauseLlm (useLlm useLlmForHighRisk : Bool)
    (enrich : String → String → List RiskFinding → Except Unit PyDict)
    (content title : String) : PyDict :=
  if useLlm &&
      (!useLlmForHighRisk ||
       decide (calculateRiskScore (detectDetailedRisks content) < 70)) then
    match enrich content title (detectDetailedRisks content) with
    | .ok llm => dictMerge (basicRiskAnalysisDict content) llm
    | .error _ => basicRiskAnalysisDict content
  else basicRiskAnalysisDict content

/-- An enrichment capability that always fails (raises), for the degrade
property. -/
def enrichAlwaysFails : String → String → List RiskFinding → Except Unit PyDict :=
  fun _ _ _ => .error ()

/-- A well-formed enrichment result: exactly the six documented fields. -/
def enrichSixFieldDict : PyDict :=
  [("risk_analysis", PyValue.str "条款存在风险"),
   ("specific_risks", PyValue.strList ["风险点1"]),
   ("modification_suggestions", PyValue.strList ["建议1"]),
   ("legal_basis", PyValue.str "合同法"),
   ("negotiation_tips", PyValue.str "建议协商"),
   ("risk_level", PyValue.str "中风险")]

/-- An enrichment capability returning the six documented fields. -/
def enrichSixField : String → String → List RiskFinding → Except Unit PyDict :=
  fun _ _ _ => .ok enrichSixFieldDict

/-- An enrichment result carrying, besides the six required fields checked
by `_parse_llm_response`, an extra `"risk_score"` binding — achievable
when the LLM's JSON object contains that extra key. -/
def enrichOverridingDict : PyDict :=
  enrichSixFieldDict ++ [("risk_score", PyValue.int 0)]

/-- An enrichment capability returning `enrichOverridingDict`. -/
def enrichOverriding : String → String → List RiskFinding → Except Unit PyDict :=
  fun _ _ _ => .ok enrichOverridingDict

/-- The spec's end-to-end example input paragraphs. -/
def exampleParagraphs : List ParagraphRecord :=
  [⟨"第一条 付款"⟩, ⟨"甲方应支付违约金10%"⟩, ⟨"第二条 验收"⟩, ⟨"按照行业通用标准验收"⟩]

/-- Modelled from the spec: the aggregator's medium bucket as the spec
states it (`60 <= risk_score < 80`), for comparison with
`generateReport`'s actual `60 <= risk_score < 75` bucket. -/
def specMediumRiskCount (analysis : List ClauseAnalysis) : Nat :=
  (analysis.filter (fun c => decide (60 ≤ c.risk_score ∧ c.risk_score < 80))).length

/-- A single medium-severity finding (keyword `支付`), scoring 75. -/
def exampleMediumFinding : RiskFinding :=
  { type := "财务风险", level := .medium, description := "发现关键词: 支付",
    position := "第1行", category := "financial_risk" }

/-- A clause analysis with score 75 (one medium finding): the smallest
input separating the 75 and 80 medium-bucket upper bounds. -/
def exampleAnalysis75 : ClauseAnalysis :=
  { risks := [exampleMediumFinding], risk_score := 75 }

/-- A single high-severity finding (pattern `违约金.*\d+\.?\d*%`). -/
def exampleHighFinding : RiskFinding :=
  { type := "财务风险", level := .high, description := "违约金比例需确认",
    position := "条款内容", category := "financial_risk" }

/-- Claim C10: the segmenter applied to the empty paragraph sequence emits
zero clause records; no preamble-titled clause is produced unless at least
one paragraph record is consumed. -/
theorem spec_c10_empty_segmentation :
    splitIntoClauses [] = [] := rfl

/-- Claim C4: aggregation of an empty sequence of clause analyses fails
(the condition the spec's taxonomy names `EmptyDocumentError`; the code
raises `ZeroDivisionError` at the division by the clause count exactly
then), and the whole-document pipeline surfaces the failure to its caller
in place of a report, so the run produces no partial report. -/
theorem spec_c4_empty_aggregation :
    generateReport [] = Except.error AggError.emptyDocument ∧
    analyzeContractBasic [] = Except.error AggError.emptyDocument :=
  ⟨rfl, rfl⟩

/-- Claim C1 (counterexample): on the spec's example paragraphs the
pipeline does not produce clause scores 55 and 45 with overall score 50 —
the detector also counts the keywords 支付/付款 in clause 1 and fires two
delivery patterns on clause 2. -/
theorem spec_c1_counterexample :
    ¬ ((splitIntoClauses exampleParagraphs).map
          (fun c => (basicRiskAnalysis c.page_content).risk_score) = [55, 45] ∧
       (analyzeContractBasic exampleParagraphs).map
          (fun r => r.overall_risk_score) = Except.ok 50) := by
  intro h
  exact absurd h.1 (by decide)

/-- Claim C1 (amended): on the example paragraphs the pipeline produces
exactly 2 clauses with clause scores 35 and 30, an overall score of 32,
document tier "高风险" (high), and high-risk clause count 2. -/
theorem spec_c1_amended :
    (splitIntoClauses exampleParagraphs).length = 2 ∧
    (splitIntoClauses exampleParagraphs).map
        (fun c => (basicRiskAnalysis c.page_content).risk_score) = [35, 30] ∧
    (analyzeContractBasic exampleParagraphs).map
        (fun r => (r.overall_risk_score, r.risk_level, r.high_risk_clauses)) =
      Except.ok (32, "高风险", 2) :=
  ⟨rfl, rfl, rfl⟩

/-- Claim C7: every finding list scores within [30,100], and consing one
more high-severity finding onto any finding list never increases the
score. -/
theorem spec_c7_scorer (risks : List RiskFinding) (f : RiskFinding)
    (hf : f.level = Severity.high) :
    30 ≤ calculateRiskScore risks ∧ calculateRiskScore risks ≤ 100 ∧
    calculateRiskScore (f :: risks) ≤ calculateRiskScore risks := by
  have hhigh : (f :: risks).filter (fun r => r.level == Severity.high) =
      f :: risks.filter (fun r => r.level == Severity.high) := by
    simp [List.filter_cons, hf]
  have hmed : (f :: risks).filter (fun r => r.level == Severity.medium) =
      risks.filter (fun r => r.level == Severity.medium) := by
    simp [List.filter_cons, hf]
  refine ⟨?_, ?_, ?_⟩
  · unfold calculateRiskScore
    split
    · norm_num
    · exact le_max_left _ _
  · unfold calculateRiskScore
    split
    · norm_num
    · refine max_le (by norm_num) ?_
      omega
  · unfold calculateRiskScore
    cases risks with
    | nil =>
      simp [List.filter_cons, hf]
    | cons r rs =>
      simp only [List.isEmpty_cons, if_neg]
      rw [hhigh, hmed]
      simp only [List.length_cons]
      refine max_le_max (le_refl 30) ?_
      push_cast
      omega

/-- Witness for C7: consing the high-severity pattern finding onto the
one-medium-finding list. -/
theorem spec_c7_witness :
    exampleHighFinding.level = Severity.high ∧
    (30 ≤ calculateRiskScore [exampleMediumFinding] ∧
     calculateRiskScore [exampleMediumFinding] ≤ 100 ∧
     calculateRiskScore (exampleHighFinding :: [exampleMediumFinding]) ≤
       calculateRiskScore [exampleMediumFinding]) :=
  ⟨rfl, spec_c7_scorer [exampleMediumFinding] exampleHighFinding rfl⟩

/-- Claim C9: the score never exceeds 85, equals 85 exactly on the empty
finding list, and any clause with at least one finding scores at most 75,
so it is never assigned the low tier (score >= 80). -/
theorem spec_c9_score_cap (risks : List RiskFinding) :
    calculateRiskScore risks ≤ 85 ∧
    (calculateRiskScore risks = 85 ↔ risks = []) ∧
    (risks ≠ [] →
      calculateRiskScore risks ≤ 75 ∧
      getRiskLevel (calculateRiskScore risks) ≠ "低风险") := by
  have hkey : risks ≠ [] → calculateRiskScore risks ≤ 75 := by
    intro hne
    cases risks with
    | nil => exact absurd rfl hne
    | cons r rs =>
      have hone : 1 ≤ ((r :: rs).filter (fun x => x.level == Severity.high)).length +
          ((r :: rs).filter (fun x => x.level == Severity.medium)).length := by
        rcases hsev : r.level <;> simp [List.filter_cons, hsev] <;> omega
      unfold calculateRiskScore
      simp only [List.isEmpty_cons, if_neg]
      refine max_le (by norm_num) ?_
      omega
  refine ⟨?_, ⟨?_, ?_⟩, fun hne => ⟨hkey hne, ?_⟩⟩
  · cases hrisks : risks with
    | nil => norm_num [calculateRiskScore]
    | cons r rs =>
      have := hkey (by simp [hrisks])
      rw [hrisks] at this
      omega
  · intro h85
    by_contra hne
    have := hkey hne
    omega
  · intro h
    subst h
    rfl
  · have h75 := hkey hne
    unfold getRiskLevel
    split
    · omega
    · split <;> decide

/-- Witness for C9 at the one-medium-finding list. -/
theorem spec_c9_witness :
    calculateRiskScore [exampleMediumFinding] ≤ 85 ∧
    (calculateRiskScore [exampleMediumFinding] = 85 ↔
      [exampleMediumFinding] = ([] : List RiskFinding)) ∧
    (calculateRiskScore [exampleMediumFinding] ≤ 75 ∧
     getRiskLevel (calculateRiskScore [exampleMediumFinding]) ≠ "低风险") := by
  have h := spec_c9_score_cap [exampleMediumFinding]
  exact ⟨h.1, h.2.1, h.2.2 (by decide)⟩

/-- The three score buckets of `_generate_report` (`< 60`,
`60 <= s < 75`, `>= 75`) partition any analysis list. -/
theorem score_buckets_partition (analyses : List ClauseAnalysis) :
    (analyses.filter (fun c => decide (c.risk_score < 60))).length +
    (analyses.filter (fun c => decide (60 ≤ c.risk_score ∧ c.risk_score < 75))).length +
    (analyses.filter (fun c => decide (75 ≤ c.risk_score))).length =
    analyses.length := by
  induction analyses with
  | nil => rfl
  | cons a as ih =>
    simp only [List.filter_cons, decide_eq_true_eq, List.length_cons]
    split_ifs <;> (try simp only [List.length_cons]) <;> omega

/-- Claim C2 (counterexample): a single clause analysis scoring 75 falls
in the spec's medium bucket (`60 <= s < 80`) but not in the aggregator's
(`60 <= s < 75`), so the aggregator's `medium_risk_clauses` is not the
count of analyses with `60 <= risk_score < 80`. -/
theorem spec_c2_counterexample :
    ¬ (∀ (analyses : List ClauseAnalysis) (r : DocumentReport),
        generateReport analyses = Except.ok r →
        r.medium_risk_clauses = specMediumRiskCount analyses) := by
  intro h
  exact absurd (h [exampleAnalysis75] _ rfl) (by decide)

/-- Claim C2 (amended): for every non-empty sequence of clause analyses,
the aggregator's `medium_risk_clauses` equals the number of analyses with
`60 <= risk_score < 75`. -/
theorem spec_c2_amended (analyses : List ClauseAnalysis) (h : analyses ≠ []) :
    (generateReport analyses).map (fun r => r.medium_risk_clauses) =
      Except.ok
        ((analyses.filter
          (fun c => decide (60 ≤ c.risk_score ∧ c.risk_score < 75))).length) := by
  unfold generateReport
  rw [if_neg (by simpa using h)]
  rfl

/-- Witness for C2 (amended) at the single score-75 analysis. -/
theorem spec_c2_witness :
    [exampleAnalysis75] ≠ ([] : List ClauseAnalysis) ∧
    (generateReport [exampleAnalysis75]).map (fun r => r.medium_risk_clauses) =
      Except.ok
        (([exampleAnalysis75].filter
          (fun c => decide (60 ≤ c.risk_score ∧ c.risk_score < 75))).length) :=
  ⟨by decide, spec_c2_amended [exampleAnalysis75] (by decide)⟩

/-- Claim C3 (counterexample): on a single clause analysis scoring 75 the
aggregator's high bucket, medium bucket and the `>= 80` bucket together
count 0 of the 1 analyses — scores in [75, 80) land in no bucket. -/
theorem spec_c3_counterexample :
    ¬ (∀ (analyses : List ClauseAnalysis) (r : DocumentReport),
        generateReport analyses = Except.ok r →
        r.high_risk_clauses + r.medium_risk_clauses +
          (analyses.filter (fun c => decide (80 ≤ c.risk_score))).length =
          analyses.length) := by
  intro h
  exact absurd (h [exampleAnalysis75] _ rfl) (by decide)

/-- Claim C3 (amended): for every non-empty sequence of clause analyses,
`high_risk_clauses + medium_risk_clauses` plus the number of analyses
with `risk_score >= 75` equals the number of analyses. -/
theorem spec_c3_amended (analyses : List ClauseAnalysis) (h : analyses ≠ []) :
    (generateReport analyses).map
        (fun r => r.high_risk_clauses + r.medium_risk_clauses +
          (analyses.filter (fun c => decide (75 ≤ c.risk_score))).length) =
      Except.ok analyses.length := by
  unfold generateReport
  rw [if_neg (by simpa using h)]
  exact congrArg Except.ok (score_buckets_partition analyses)

/-- Witness for C3 (amended) at the single score-75 analysis. -/
theorem spec_c3_witness :
    [exampleAnalysis75] ≠ ([] : List ClauseAnalysis) ∧
    (generateReport [exampleAnalysis75]).map
        (fun r => r.high_risk_clauses + r.medium_risk_clauses +
          ([exampleAnalysis75].filter
            (fun c => decide (75 ≤ c.risk_score))).length) =
      Except.ok (List.length [exampleAnalysis75]) :=
  ⟨by decide, spec_c3_amended [exampleAnalysis75] (by decide)⟩

/-- Claim C5: for every clause and every policy (`use_llm`,
`use_llm_for_high_risk`), if every invocation of the enrichment
capability fails (raises), the per-clause analysis equals the
`use_llm = False` (never-policy) run — the bare basic analysis — so no
enrichment fields are present and the findings and risk score are the
deterministic ones. -/
theorem spec_c5_degrade (useLlm useLlmForHighRisk : Bool)
    (enrich : String → String → List RiskFinding → Except Unit PyDict)
    (content title : String)
    (h : ∀ c t r, enrich c t r = Except.error ()) :
    analyzeClauseLlm useLlm useLlmForHighRisk enrich content title =
      analyzeClauseLlm false useLlmForHighRisk enrich content title ∧
    analyzeClauseLlm useLlm useLlmForHighRisk enrich content title =
      basicRiskAnalysisDict content ∧
    dictGet (analyzeClauseLlm useLlm useLlmForHighRisk enrich content title)
      "risk_analysis" = none ∧
    dictGet (analyzeClauseLlm useLlm useLlmForHighRisk enrich content title)
      "modification_suggestions" = none ∧
    dictGet (analyzeClauseLlm useLlm useLlmForHighRisk enrich content title)
      "risk_level" = none ∧
    dictGet (analyzeClauseLlm useLlm useLlmForHighRisk enrich content title)
      "risk_score" =
      some (PyValue.int (calculateRiskScore (detectDetailedRisks content))) ∧
    dictGet (analyzeClauseLlm useLlm useLlmForHighRisk enrich content title)
      "risks" =
      some (PyValue.findings (detectDetailedRisks content)) := by
  have hbasic :
      analyzeClauseLlm useLlm useLlmForHighRisk enrich content title =
        basicRiskAnalysisDict content := by
    unfold analyzeClauseLlm
    split
    · rw [h]
    · rfl
  have hnever :
      analyzeClauseLlm false useLlmForHighRisk enrich content title =
        basicRiskAnalysisDict content := rfl
  rw [hbasic, hnever]
  exact ⟨rfl, rfl, rfl, rfl, rfl, rfl, rfl⟩

/-- Witness for C5: the always-failing capability, high-risk-only policy,
on the clause body `付款`. -/
theorem spec_c5_witness :
    (∀ c t r, enrichAlwaysFails c t r = Except.error ()) ∧
    (analyzeClauseLlm true true enrichAlwaysFails "付款" "第一条" =
       analyzeClauseLlm false true enrichAlwaysFails "付款" "第一条" ∧
     analyzeClauseLlm true true enrichAlwaysFails "付款" "第一条" =
       basicRiskAnalysisDict "付款" ∧
     dictGet (analyzeClauseLlm true true enrichAlwaysFails "付款" "第一条")
       "risk_analysis" = none ∧
     dictGet (analyzeClauseLlm true true enrichAlwaysFails "付款" "第一条")
       "modification_suggestions" = none ∧
     dictGet (analyzeClauseLlm true true enrichAlwaysFails "付款" "第一条")
       "risk_level" = none ∧
     dictGet (analyzeClauseLlm true true enrichAlwaysFails "付款" "第一条")
       "risk_score" =
       some (PyValue.int (calculateRiskScore (detectDetailedRisks "付款"))) ∧
     dictGet (analyzeClauseLlm true true enrichAlwaysFails "付款" "第一条")
       "risks" =
       some (PyValue.findings (detectDetailedRisks "付款"))) :=
  ⟨fun _ _ _ => rfl,
   spec_c5_degrade true true enrichAlwaysFails "付款" "第一条" (fun _ _ _ => rfl)⟩

/-- Claim C8 (counterexample): an enrichment result that carries the six
documented fields plus an extra `"risk_score"` binding overrides the
Scorer's output in the merged analysis (`{**basic, **llm}` lets any
LLM-returned key shadow the deterministic one). -/
theorem spec_c8_counterexample :
    dictGet (analyzeClauseLlm true false enrichOverriding "" "条款")
        "risk_score" ≠
      some (PyValue.int (calculateRiskScore (detectDetailedRisks ""))) := by
  decide

/-- Claim C8 (amended): when the enrichment call succeeds and its result
binds none of the deterministic keys (`risks`, `risk_score`,
`review_status`) — in particular any result of the documented six-field
shape — the merge leaves the Scorer's risk score and the Detector's
findings unchanged. -/
theorem spec_c8_amended (useLlm useLlmForHighRisk : Bool)
    (enrich : String → String → List RiskFinding → Except Unit PyDict)
    (content title : String)
    (h : ∀ c t r d, enrich c t r = Except.ok d →
      dictGet d "risks" = none ∧ dictGet d "risk_score" = none) :
    dictGet (analyzeClauseLlm useLlm useLlmForHighRisk enrich content title)
        "risk_score" =
      some (PyValue.int (calculateRiskScore (detectDetailedRisks content))) ∧
    dictGet (analyzeClauseLlm useLlm useLlmForHighRisk enrich content title)
        "risks" =
      some (PyValue.findings (detectDetailedRisks content)) := by
  unfold analyzeClauseLlm
  split
  · cases hE : enrich content title (detectDetailedRisks content) with
    | error e => exact ⟨rfl, rfl⟩
    | ok d =>
      obtain ⟨h1, h2⟩ := h _ _ _ _ hE
      unfold dictMerge basicRiskAnalysisDict
      simp only [List.map_cons, List.map_nil]
      rw [h1, h2]
      exact ⟨rfl, rfl⟩
  · exact ⟨rfl, rfl⟩

/-- Witness for C8 (amended): the six-field enrichment result under the
always policy on the clause body `付款`. -/
theorem spec_c8_witness :
    (∀ c t r d, enrichSixField c t r = Except.ok d →
      dictGet d "risks" = none ∧ dictGet d "risk_score" = none) ∧
    dictGet (analyzeClauseLlm true false enrichSixField "付款" "第一条")
        "risk_score" =
      some (PyValue.int (calculateRiskScore (detectDetailedRisks "付款"))) ∧
    dictGet (analyzeClauseLlm true false enrichSixField "付款" "第一条")
        "risks" =
      some (PyValue.findings (detectDetailedRisks "付款")) := by
  have hf : ∀ c t r d, enrichSixField c t r = Except.ok d →
      dictGet d "risks" = none ∧ dictGet d "risk_score" = none := by
    intro c t r d hd
    injection hd with hd2
    subst hd2
    exact ⟨rfl, rfl⟩
  exact ⟨hf, spec_c8_amended true false enrichSixField "付款" "第一条" hf⟩

theorem joinNl_cons_ne (s : String) (rest : List String) (h : rest ≠ []) :
    joinNl (s :: rest) = s ++ "\n" ++ joinNl rest := by
  cases rest with
  | nil => exact absurd rfl h
  | cons a l => rfl

theorem joinNl_append_ne (A B : List String) (hA : A ≠ []) (hB : B ≠ []) :
    joinNl (A ++ B) = joinNl A ++ "\n" ++ joinNl B := by
  induction A with
  | nil => exact absurd rfl hA
  | cons a A ih =>
    cases A with
    | nil =>
      cases B with
      | nil => exact absurd rfl hB
      | cons b B' => rfl
    | cons a2 A2 =>
      have h2 : (a2 :: A2 : List String) ≠ [] := by simp
      have h3 : (a2 :: A2) ++ B ≠ [] := by simp
      calc joinNl ((a :: a2 :: A2) ++ B)
          = a ++ "\n" ++ joinNl ((a2 :: A2) ++ B) := joinNl_cons_ne _ _ h3
        _ = a ++ "\n" ++ (joinNl (a2 :: A2) ++ "\n" ++ joinNl B) := by
            rw [ih h2]
        _ = (a ++ "\n" ++ joinNl (a2 :: A2)) ++ "\n" ++ joinNl B := by
            simp [String.append_assoc]
        _ = joinNl (a :: a2 :: A2) ++ "\n" ++ joinNl B := by
            rw [joinNl_cons_ne _ _ h2]

theorem joinNl_snoc (A : List String) (t : String) (hA : A ≠ []) :
    joinNl (A ++ [t]) = joinNl A ++ "\n" ++ t :=
  joinNl_append_ne A [t] hA (by simp)

theorem joinNl_collapse (C B : List String) (hB : B ≠ []) :
    joinNl (C ++ [joinNl B]) = joinNl (C ++ B) := by
  cases C with
  | nil => rfl
  | cons c C' =>
    rw [joinNl_append_ne (c :: C') [joinNl B] (by simp) (by simp),
        joinNl_append_ne (c :: C') B (by simp) hB]
    rfl

theorem updateLast_ne_nil (f : String → String) (S : List String)
    (h : S ≠ []) : updateLast f S ≠ [] := by
  cases S with
  | nil => exact absurd rfl h
  | cons s S' => cases S' <;> simp [updateLast]

theorem joinNl_updateLast (t : String) (S : List String) (hS : S ≠ []) :
    joinNl (updateLast (fun s => s ++ "\n" ++ t) S) = joinNl S ++ "\n" ++ t := by
  induction S with
  | nil => exact absurd rfl hS
  | cons s S' ih =>
    cases S' with
    | nil => rfl
    | cons s2 S2 =>
      have h2 : (s2 :: S2 : List String) ≠ [] := by simp
      have h3 := updateLast_ne_nil (fun s => s ++ "\n" ++ t) (s2 :: S2) h2
      calc joinNl (updateLast (fun s => s ++ "\n" ++ t) (s :: s2 :: S2))
          = joinNl (s :: updateLast (fun s => s ++ "\n" ++ t) (s2 :: S2)) := rfl
        _ = s ++ "\n" ++ joinNl (updateLast (fun s => s ++ "\n" ++ t) (s2 :: S2)) :=
            joinNl_cons_ne _ _ h3
        _ = s ++ "\n" ++ (joinNl (s2 :: S2) ++ "\n" ++ t) := by rw [ih h2]
        _ = (s ++ "\n" ++ joinNl (s2 :: S2)) ++ "\n" ++ t := by
            simp [String.append_assoc]
        _ = joinNl (s :: s2 :: S2) ++ "\n" ++ t := by
            rw [joinNl_cons_ne _ _ h2]

theorem joinNl_append_updateLast (P S : List String) (t : String) (hS : S ≠ []) :
    joinNl (P ++ updateLast (fun s => s ++ "\n" ++ t) S) =
      joinNl (P ++ S) ++ "\n" ++ t := by
  cases P with
  | nil => simpa using joinNl_updateLast t S hS
  | cons p P' =>
    rw [joinNl_append_ne (p :: P') _ (by simp) (updateLast_ne_nil _ S hS),
        joinNl_updateLast t S hS,
        joinNl_append_ne (p :: P') S (by simp) hS]
    simp [String.append_assoc]

theorem joinNl_snoc_congr (P ts : List String) (t : String)
    (h1 : joinNl P = joinNl ts) (h2 : P = [] ↔ ts = []) :
    joinNl (P ++ [t]) = joinNl (ts ++ [t]) := by
  cases P with
  | nil =>
    have h3 : ts = [] := h2.mp rfl
    subst h3
    rfl
  | cons p P' =>
    have hts : ts ≠ [] := by
      intro h3
      exact absurd (h2.mpr h3) (by simp)
    rw [joinNl_snoc _ t (by simp), joinNl_snoc ts t hts, h1]

/-- One step of the segmentation loop preserves the text invariant. -/
theorem segStep_inv (st : SegState) (ts : List String) (t : String)
    (h : SegInv st ts) : SegInv (segStep st t) (ts ++ [t]) := by
  obtain ⟨cl, M, title, S⟩ := st
  obtain ⟨hEq, hIff⟩ := h
  simp only [stParts] at hEq hIff
  unfold segStep
  by_cases hm : isMainClause t = true
  · rw [if_pos hm]
    by_cases hf : (!M.isEmpty || !S.isEmpty) = true
    · rw [if_pos hf]
      have hMS : M ++ S ≠ [] := by
        intro hc
        obtain ⟨hM0, hS0⟩ := List.append_eq_nil.mp hc
        subst hM0; subst hS0; simp at hf
      have hpartsne : cl.map (fun c => c.page_content) ++ M ++ S ≠ [] := by
        simp only [List.append_assoc]
        intro hc
        exact hMS (List.append_eq_nil.mp hc).2
      have hts : ts ≠ [] := fun h0 => hpartsne (hIff.mpr h0)
      refine ⟨?_, ?_⟩
      · show joinNl (stParts ⟨flushClause ⟨cl, M, title, S⟩, [t], t, []⟩) =
          joinNl (ts ++ [t])
        simp only [stParts, flushClause, combineClauseContent, List.map_append,
          List.map_cons, List.map_nil, List.append_nil]
        rw [joinNl_snoc _ t (by simp), joinNl_collapse _ (M ++ S) hMS,
          ← List.append_assoc, hEq, ← joinNl_snoc ts t hts]
      · show stParts ⟨flushClause ⟨cl, M, title, S⟩, [t], t, []⟩ = [] ↔
          ts ++ [t] = []
        simp [stParts]
    · rw [if_neg hf]
      have hM0 : M = [] := by
        cases M with
        | nil => rfl
        | cons m M' => simp at hf
      have hS0 : S = [] := by
        cases S with
        | nil => rfl
        | cons s S' => simp at hf
      subst hM0; subst hS0
      simp only [List.append_nil] at hEq hIff
      refine ⟨?_, ?_⟩
      · show joinNl (stParts ⟨cl, [t], t, []⟩) = joinNl (ts ++ [t])
        simp only [stParts, List.append_nil]
        exact joinNl_snoc_congr _ ts t hEq hIff
      · show stParts ⟨cl, [t], t, []⟩ = [] ↔ ts ++ [t] = []
        simp [stParts]
  · rw [if_neg hm]
    by_cases hsub : isSubClause t = true
    · rw [if_pos hsub]
      refine ⟨?_, ?_⟩
      · show joinNl (stParts ⟨cl, M, title, S ++ [t]⟩) = joinNl (ts ++ [t])
        simp only [stParts]
        have := joinNl_snoc_congr
          (cl.map (fun c => c.page_content) ++ M ++ S) ts t hEq hIff
        simpa [List.append_assoc] using this
      · show stParts ⟨cl, M, title, S ++ [t]⟩ = [] ↔ ts ++ [t] = []
        simp [stParts]
    · rw [if_neg hsub]
      by_cases hS : (!S.isEmpty) = true
      · rw [if_pos hS]
        have hSne : S ≠ [] := by simpa using hS
        have hpartsne : cl.map (fun c => c.page_content) ++ M ++ S ≠ [] := by
          intro hc
          exact hSne (List.append_eq_nil.mp hc).2
        have hts : ts ≠ [] := fun h0 => hpartsne (hIff.mpr h0)
        have hul := updateLast_ne_nil (fun s => s ++ "\n" ++ t) S hSne
        refine ⟨?_, ?_⟩
        · show joinNl
            (stParts ⟨cl, M, title, updateLast (fun s => s ++ "\n" ++ t) S⟩) =
            joinNl (ts ++ [t])
          simp only [stParts]
          rw [joinNl_append_updateLast _ S t hSne, hEq, joinNl_snoc ts t hts]
        · show stParts ⟨cl, M, title, updateLast (fun s => s ++ "\n" ++ t) S⟩ = []
            ↔ ts ++ [t] = []
          simp [stParts, hul]
      · rw [if_neg hS]
        have hSe : S = [] := by
          cases S with
          | nil => rfl
          | cons s S' => simp at hS
        subst hSe
        simp only [List.append_nil] at hEq hIff
        refine ⟨?_, ?_⟩
        · show joinNl (stParts ⟨cl, M ++ [t], title, []⟩) = joinNl (ts ++ [t])
          simp only [stParts, List.append_nil]
          have := joinNl_snoc_congr
            (cl.map (fun c => c.page_content) ++ M) ts t hEq hIff
          simpa [List.append_assoc] using this
        · show stParts ⟨cl, M ++ [t], title, []⟩ = [] ↔ ts ++ [t] = []
          simp [stParts]

/-- Folding the segmentation step over any paragraph list preserves the
text invariant. -/
theorem segFold_inv (docs : List ParagraphRecord) :
    ∀ (st : SegState) (ts : List String), SegInv st ts →
    SegInv (docs.foldl (fun st d => segStep st d.page_content) st)
      (ts ++ docs.map (fun d => d.page_content)) := by
  induction docs with
  | nil => intro st ts h; simpa using h
  | cons d docs ih =>
    intro st ts h
    have h2 := ih (segStep st d.page_content) (ts ++ [d.page_content])
      (segStep_inv st ts d.page_content h)
    simpa [List.append_assoc] using h2

/-- Claim C6: for every non-empty paragraph sequence, the segmenter emits
at least one clause, and the newline-join of the emitted clause bodies
equals the newline-join of the original paragraph texts (no text is lost
or duplicated). -/
theorem spec_c6_segmentation (docs : List ParagraphRecord) (h : docs ≠ []) :
    1 ≤ (splitIntoClauses docs).length ∧
    joinNl ((splitIntoClauses docs).map (fun c => c.page_content)) =
      joinNl (docs.map (fun d => d.page_content)) := by
  have hinv : SegInv (docs.foldl (fun st d => segStep st d.page_content) initSegState)
      (docs.map (fun d => d.page_content)) := by
    have h0 : SegInv initSegState [] := ⟨rfl, by simp [stParts, initSegState]⟩
    simpa using segFold_inv docs initSegState [] h0
  rcases hst : docs.foldl (fun st d => segStep st d.page_content) initSegState
    with ⟨fcl, fM, ftitle, fS⟩
  rw [hst] at hinv
  obtain ⟨hEq, hIff⟩ := hinv
  simp only [stParts] at hEq hIff
  unfold splitIntoClauses finishSeg
  rw [hst]
  by_cases hf : (!fM.isEmpty || !fS.isEmpty) = true
  · rw [if_pos hf]
    have hMS : fM ++ fS ≠ [] := by
      intro hc
      obtain ⟨hM0, hS0⟩ := List.append_eq_nil.mp hc
      subst hM0; subst hS0; simp at hf
    refine ⟨by simp [flushClause], ?_⟩
    simp only [flushClause, combineClauseContent, List.map_append,
      List.map_cons, List.map_nil]
    rw [joinNl_collapse _ (fM ++ fS) hMS, ← List.append_assoc, hEq]
  · rw [if_neg hf]
    have hM0 : fM = [] := by
      cases fM with
      | nil => rfl
      | cons m M' => simp at hf
    have hS0 : fS = [] := by
      cases fS with
      | nil => rfl
      | cons s S' => simp at hf
    subst hM0; subst hS0
    simp only [List.append_nil] at hEq hIff
    have hts : docs.map (fun d => d.page_content) ≠ [] := by
      simpa using h
    have hcl : fcl ≠ [] := by
      intro h0
      exact hts (hIff.mp (by simp [h0]))
    refine ⟨?_, hEq⟩
    cases fcl with
    | nil => exact absurd rfl hcl
    | cons c cs => simp

/-- Witness for C6 at the spec's example paragraphs. -/
theorem spec_c6_witness :
    exampleParagraphs ≠ [] ∧
    (1 ≤ (splitIntoClauses exampleParagraphs).length ∧
     joinNl ((splitIntoClauses exampleParagraphs).map (fun c => c.page_content)) =
       joinNl (exampleParagraphs.map (fun d => d.page_content))) :=
  ⟨by decide, spec_c6_segmentation exampleParagraphs (by decide)⟩

end ContractAI
